import Mathlib

/-!
Verification of the miniox path-namespace and folder-emulation layer
(package `pkg/miniox` of minio-go-extended).

Go strings are modelled as lists of characters (`GoStr`); the Go standard
library helpers used by the source (`filepath.ToSlash`, `strings.Trim`,
`strings.HasPrefix`, `strings.HasSuffix`, `strings.Contains`,
`strings.TrimPrefix`, `strings.Split`) are implemented here on `GoStr`
following their documented semantics.  The storage collaborator (the
underlying MinIO client) is modelled by explicit oracle functions passed
to each operation; an operation's "request" to the collaborator is the
bucket/key record it would send.
-/

/-- Go strings, modelled as lists of characters. -/
abbrev GoStr := List Char

/-- `filepath.ToSlash` replaces every OS path separator with a forward
slash; the non-trivial separator is the backslash. -/
def slashify (ch : Char) : Char := if ch = '\\' then '/' else ch

/-- `filepath.ToSlash` on a whole string. -/
def toSlash (l : GoStr) : GoStr := l.map slashify

/-- Drop leading forward slashes (the leading half of `strings.Trim(s, "/")`). -/
def dropLead (l : GoStr) : GoStr := l.dropWhile (· == '/')

/-- Drop trailing forward slashes (the trailing half of `strings.Trim(s, "/")`). -/
def dropTrail (l : GoStr) : GoStr := (l.reverse.dropWhile (· == '/')).reverse

/-- `strings.Trim(s, "/")`: remove leading and trailing slashes. -/
def trimSlash (l : GoStr) : GoStr := dropTrail (dropLead l)

/-- `strings.HasPrefix(s, pre)`. -/
def hasPfx : GoStr → GoStr → Bool
  | [], _ => true
  | _ :: _, [] => false
  | a :: as, b :: bs => a == b && hasPfx as bs

/-- `strings.HasSuffix(s, suf)`. -/
def hasSfx (suf l : GoStr) : Bool := hasPfx suf.reverse l.reverse

/-- `strings.Contains(s, sub)`: substring containment. -/
def containsSub (sub : GoStr) : GoStr → Bool
  | [] => sub.isEmpty
  | c :: rest => hasPfx sub (c :: rest) || containsSub sub rest

/-- `strings.TrimPrefix(s, pre)`. -/
def trimPfxOf (pre l : GoStr) : GoStr :=
  if hasPfx pre l then l.drop pre.length else l

/-- `strings.Split(s, sep)` for a one-character separator.
`splitOnChar sep ""` is `[""]`, matching Go. -/
def splitOnChar (sep : Char) : GoStr → List GoStr
  | [] => [[]]
  | c :: rest =>
    let r := splitOnChar sep rest
    if c = sep then [] :: r
    else (c :: r.headD []) :: r.tail

/-- The client configuration that the path layer reads
(`Client` in client.go; `baseDir` is the source's base-directory-prefix
field, `bucketName` the bucket). -/
structure Client where
  bucketName : GoStr
  baseDir : GoStr
  publicBaseURL : GoStr
deriving DecidableEq

/-- Path validation errors produced by `ValidatePath` (client.go:157-171):
traversal (path contains ".."), absolute (path begins with "/"), and the
wrapped form produced by `ComposeObject` for invalid source paths. -/
inductive PathErr where
  | traversal (p : GoStr)
  | absolute (p : GoStr)
  | invalidSource (obj : GoStr) (inner : PathErr)
deriving DecidableEq

/-- `ValidatePath` (client.go:157-171): convert separators, reject any
path containing ".." as a substring, then reject paths beginning
with "/". -/
def validatePath (_c : Client) (path : GoStr) : Except PathErr Unit :=
  let cleanPath := toSlash path
  if containsSub ['.', '.'] cleanPath then
    .error (.traversal path)
  else if hasPfx ['/'] cleanPath then
    .error (.absolute path)
  else
    .ok ()

/-- `buildPath` (client.go:109-133): trim and slash-normalize the input
path and the base directory prefix, then join with a single slash. -/
def buildPath (c : Client) (path : GoStr) : GoStr :=
  let cleanPath := trimSlash (toSlash path)
  if c.baseDir = [] then
    if cleanPath = [] then [] else cleanPath
  else
    let cleanBase := trimSlash (toSlash c.baseDir)
    if cleanPath = [] then cleanBase
    else cleanBase ++ '/' :: cleanPath

/-- `stripBasePath` (client.go:137-154): remove the base directory prefix
from a full key, returning the input unchanged when it does not carry
the prefix. -/
def stripBasePath (c : Client) (fullPath : GoStr) : GoStr :=
  if c.baseDir = [] then fullPath
  else
    let cleanBase := trimSlash (toSlash c.baseDir)
    let cleanFullPath := toSlash fullPath
    if hasPfx (cleanBase ++ ['/']) cleanFullPath then
      cleanFullPath.drop (cleanBase.length + 1)
    else if cleanFullPath = cleanBase then []
    else cleanFullPath

/-- Spec-side normalization function: canonicalize separators to forward
slashes and trim leading/trailing slashes (the spec's `normalize`). -/
def normalizePath (p : GoStr) : GoStr := trimSlash (toSlash p)

/-- Spec-side join: combine two already-normalized components, inserting
exactly one separator between non-empty components. -/
def joinKey (a b : GoStr) : GoStr :=
  if a = [] then b else if b = [] then a else a ++ '/' :: b

/-- Segment-level parent-directory test: the slash-split of the
slash-normalized path contains a ".." segment. -/
def hasParentSegment (p : GoStr) : Bool :=
  (splitOnChar '/' (toSlash p)).contains ['.', '.']

instance {ε α : Type} [DecidableEq ε] [DecidableEq α] :
    DecidableEq (Except ε α) := fun x y =>
  match x, y with
  | .ok a, .ok b => decidable_of_iff (a = b) (by simp)
  | .ok _, .error _ => isFalse (by simp)
  | .error _, .ok _ => isFalse (by simp)
  | .error e, .error f => decidable_of_iff (e = f) (by simp)

/- ### Basic lemmas about the string helpers -/

theorem slashify_ne_bs (ch : Char) : slashify ch ≠ '\\' := by
  unfold slashify
  split
  · decide
  · assumption

theorem mem_toSlash_ne_bs {l : GoStr} {ch : Char} (h : ch ∈ toSlash l) :
    ch ≠ '\\' := by
  rcases List.mem_map.1 h with ⟨a, _, rfl⟩
  exact slashify_ne_bs a

theorem toSlash_eq_self {l : GoStr} (h : ∀ ch ∈ l, ch ≠ '\\') :
    toSlash l = l := by
  induction l with
  | nil => rfl
  | cons a as ih =>
    have ha : a ≠ '\\' := h a (List.mem_cons_self a as)
    have : slashify a = a := by
      unfold slashify
      split
      · exact absurd ‹a = '\\'› ha
      · rfl
    simp [toSlash, this]
    exact ih fun ch hch => h ch (List.mem_cons_of_mem _ hch)

theorem mem_dropLead {l : GoStr} {a : Char} (h : a ∈ dropLead l) : a ∈ l :=
  (List.dropWhile_sublist _).subset h

theorem mem_dropTrail {l : GoStr} {a : Char} (h : a ∈ dropTrail l) : a ∈ l := by
  unfold dropTrail at h
  rw [List.mem_reverse] at h
  exact List.mem_reverse.1 ((List.dropWhile_sublist _).subset h)

theorem mem_trimSlash {l : GoStr} {a : Char} (h : a ∈ trimSlash l) : a ∈ l :=
  mem_dropLead (mem_dropTrail h)

theorem toSlash_trimSlash_toSlash (l : GoStr) :
    toSlash (trimSlash (toSlash l)) = trimSlash (toSlash l) :=
  toSlash_eq_self fun _ hch => mem_toSlash_ne_bs (mem_trimSlash hch)

theorem toSlash_append (l m : GoStr) :
    toSlash (l ++ m) = toSlash l ++ toSlash m := List.map_append ..

theorem toSlash_cons (c : Char) (l : GoStr) :
    toSlash (c :: l) = slashify c :: toSlash l := rfl

theorem hasPfx_append (l m : GoStr) : hasPfx l (l ++ m) = true := by
  induction l with
  | nil => rfl
  | cons a as ih => simp [hasPfx, ih]

theorem hasPfx_length {pre l : GoStr} (h : hasPfx pre l = true) :
    pre.length ≤ l.length := by
  induction pre generalizing l with
  | nil => simp
  | cons a as ih =>
    cases l with
    | nil => simp [hasPfx] at h
    | cons b bs =>
      simp only [hasPfx, Bool.and_eq_true] at h
      simpa [Nat.succ_le_succ_iff] using ih h.2

/-- The first character surviving `dropWhile` fails the predicate. -/
theorem head_dropWhile {p : Char → Bool} {l : GoStr} {b : Char} {bs : GoStr}
    (h : l.dropWhile p = b :: bs) : p b = false := by
  induction l with
  | nil => simp at h
  | cons a as ih =>
    by_cases hp : p a
    · rw [List.dropWhile_cons_of_pos hp] at h
      exact ih h
    · rw [List.dropWhile_cons_of_neg hp] at h
      cases h
      exact Bool.of_not_eq_true hp

/-- `dropTrail l` is a prefix of `l`. -/
theorem dropTrail_append (l : GoStr) : ∃ t, l = dropTrail l ++ t := by
  have h := List.dropWhile_suffix (l := l.reverse) (p := (· == '/'))
  rcases h with ⟨s, hs⟩
  refine ⟨s.reverse, ?_⟩
  have := congrArg List.reverse hs
  simpa [dropTrail] using this.symm

/-- The head of a non-empty `trimSlash` result is not a slash. -/
theorem trimSlash_head {l : GoStr} {b : Char} {bs : GoStr}
    (h : trimSlash l = b :: bs) : (b == '/') = false := by
  rcases dropTrail_append (dropLead l) with ⟨t, ht⟩
  unfold trimSlash at h
  rw [h] at ht
  have : dropLead l = b :: (bs ++ t) := by simpa using ht
  exact head_dropWhile (p := (· == '/')) this

/-- The last character of a non-empty `trimSlash` result is not a slash. -/
theorem trimSlash_last {l : GoStr} {b : Char} {bs : GoStr}
    (h : (trimSlash l).reverse = b :: bs) : (b == '/') = false := by
  have : (dropLead l).reverse.dropWhile (· == '/') = b :: bs := by
    simpa [trimSlash, dropTrail] using h
  exact head_dropWhile (p := (· == '/')) this

theorem hasPfx_slash_cons (b : Char) (l : GoStr) :
    hasPfx ['/'] (b :: l) = ('/' == b) := by
  simp [hasPfx]

/-- A `trimSlash` result never ends with a slash. -/
theorem trimSlash_hasSfx_false (l : GoStr) :
    hasSfx ['/'] (trimSlash l) = false := by
  unfold hasSfx
  simp only [List.reverse_singleton]
  cases h : (trimSlash l).reverse with
  | nil => simp [hasPfx]
  | cons b bs =>
    have hb := trimSlash_last h
    rw [hasPfx_slash_cons]
    simp only [beq_eq_false_iff_ne] at hb ⊢
    exact Ne.symm hb

/-- `buildPath` never ends with a slash. -/
theorem buildPath_no_trailing_slash (c : Client) (p : GoStr) :
    hasSfx ['/'] (buildPath c p) = false := by
  simp only [buildPath]
  split
  · split
    · simp [hasSfx, hasPfx]
    · exact trimSlash_hasSfx_false _
  · split
    · exact trimSlash_hasSfx_false _
    · rename_i hcp
      unfold hasSfx
      simp only [List.reverse_cons, List.reverse_nil, List.nil_append,
        List.reverse_append, List.append_assoc, List.cons_append]
      cases hrev : (trimSlash (toSlash p)).reverse with
      | nil =>
        exact absurd (by simpa using congrArg List.reverse hrev) hcp
      | cons b bs =>
        have hb := trimSlash_last hrev
        simp only [List.cons_append, hasPfx_slash_cons]
        simp only [beq_eq_false_iff_ne] at hb ⊢
        exact Ne.symm hb

/-- A `trimSlash` result never begins with a slash. -/
theorem trimSlash_hasPfx_false (l : GoStr) :
    hasPfx ['/'] (trimSlash l) = false := by
  cases h : trimSlash l with
  | nil => simp [hasPfx]
  | cons b bs =>
    have hb := trimSlash_head h
    rw [hasPfx_slash_cons]
    simp only [beq_eq_false_iff_ne] at hb ⊢
    exact Ne.symm hb

theorem trimSlash_toSlash_no_bs (l : GoStr) :
    ∀ ch ∈ trimSlash (toSlash l), ch ≠ '\\' :=
  fun _ h => mem_toSlash_ne_bs (mem_trimSlash h)

/-- `buildPath` with an empty base directory prefix is normalization. -/
theorem buildPath_empty_base {c : Client} (hb : c.baseDir = []) (p : GoStr) :
    buildPath c p = normalizePath p := by
  simp only [buildPath, normalizePath]
  rw [if_pos hb]
  split
  · rename_i h
    exact h.symm
  · rfl

/-- `buildPath` with a non-empty base directory prefix and a path that
normalizes to empty returns the normalized base prefix. -/
theorem buildPath_base_only {c : Client} (hb : c.baseDir ≠ [])
    {p : GoStr} (hcp : normalizePath p = []) :
    buildPath c p = trimSlash (toSlash c.baseDir) := by
  simp only [buildPath]
  rw [if_neg hb, if_pos (by simpa [normalizePath] using hcp)]

/-- `buildPath` with a non-empty base directory prefix and a path with
non-empty normalization joins the two with a single slash. -/
theorem buildPath_join {c : Client} (hb : c.baseDir ≠ [])
    {p : GoStr} (hcp : normalizePath p ≠ []) :
    buildPath c p =
      trimSlash (toSlash c.baseDir) ++ '/' :: normalizePath p := by
  simp only [buildPath, normalizePath]
  rw [if_neg hb, if_neg (by simpa [normalizePath] using hcp)]

/-- Stripping the base prefix undoes building, yielding the
normalization of the input path (holds for every client and path). -/
theorem strip_build_eq_normalize (c : Client) (p : GoStr) :
    stripBasePath c (buildPath c p) = normalizePath p := by
  by_cases hb : c.baseDir = []
  · rw [buildPath_empty_base hb]
    simp only [stripBasePath]
    rw [if_pos hb]
  · by_cases hcp : normalizePath p = []
    · rw [buildPath_base_only hb hcp]
      simp only [stripBasePath]
      rw [if_neg hb]
      have hBB : toSlash (trimSlash (toSlash c.baseDir)) =
          trimSlash (toSlash c.baseDir) :=
        toSlash_eq_self (trimSlash_toSlash_no_bs _)
      rw [hBB]
      have hpf : hasPfx (trimSlash (toSlash c.baseDir) ++ ['/'])
          (trimSlash (toSlash c.baseDir)) = false := by
        cases hh : hasPfx (trimSlash (toSlash c.baseDir) ++ ['/'])
            (trimSlash (toSlash c.baseDir))
        · rfl
        · exfalso
          have := hasPfx_length hh
          simp at this
      rw [hpf]
      simp [hcp]
    · rw [buildPath_join hb hcp]
      simp only [stripBasePath]
      rw [if_neg hb]
      have h1 : toSlash (trimSlash (toSlash c.baseDir) ++
          '/' :: normalizePath p) =
          trimSlash (toSlash c.baseDir) ++ '/' :: normalizePath p := by
        apply toSlash_eq_self
        intro ch hch
        rcases List.mem_append.1 hch with h | h
        · exact trimSlash_toSlash_no_bs _ _ h
        · rcases List.mem_cons.1 h with rfl | h
          · decide
          · exact trimSlash_toSlash_no_bs _ _ h
      rw [h1]
      have h2 : trimSlash (toSlash c.baseDir) ++ '/' :: normalizePath p =
          (trimSlash (toSlash c.baseDir) ++ ['/']) ++ normalizePath p := by
        simp
      rw [h2, hasPfx_append, if_pos rfl]
      have h3 : (trimSlash (toSlash c.baseDir) ++ ['/']).length =
          (trimSlash (toSlash c.baseDir)).length + 1 := by
        simp
      rw [← h3, List.drop_left]

/-- `buildPath` output never begins with a slash, provided the base
directory prefix is empty or does not normalize to empty. -/
theorem buildPath_no_leading_slash (c : Client) (p : GoStr)
    (h : c.baseDir = [] ∨ trimSlash (toSlash c.baseDir) ≠ []) :
    hasPfx ['/'] (buildPath c p) = false := by
  by_cases hb : c.baseDir = []
  · rw [buildPath_empty_base hb]
    exact trimSlash_hasPfx_false _
  · have hB : trimSlash (toSlash c.baseDir) ≠ [] := by
      rcases h with h' | h'
      · exact absurd h' hb
      · exact h'
    by_cases hcp : normalizePath p = []
    · rw [buildPath_base_only hb hcp]
      exact trimSlash_hasPfx_false _
    · rw [buildPath_join hb hcp]
      cases hB' : trimSlash (toSlash c.baseDir) with
      | nil => exact absurd hB' hB
      | cons b bs =>
        have hbh := trimSlash_head hB'
        simp only [List.cons_append, hasPfx_slash_cons]
        simp only [beq_eq_false_iff_ne] at hbh ⊢
        exact Ne.symm hbh

/-- A concrete client with base directory prefix `"base"`. -/
def cBaseC : Client :=
  { bucketName := "bkt".data, baseDir := "base".data, publicBaseURL := [] }

/-- A concrete client with no base directory prefix. -/
def cEmptyC : Client :=
  { bucketName := "bkt".data, baseDir := [], publicBaseURL := [] }

/-- A concrete client whose base directory prefix is the single slash
`"/"` (accepted unchanged by the constructor). -/
def cSlashC : Client :=
  { bucketName := "bkt".data, baseDir := "/".data, publicBaseURL := [] }

/-- C1: for every relative path without a ".." segment and not absolute,
and every configured base prefix, stripping the base prefix from the key
built from the path yields the slash-normalized, slash-trimmed path:
`stripBasePath (buildPath p) = normalize p`. -/
theorem c1_strip_build_roundtrip (c : Client) (p : GoStr)
    (_h1 : hasParentSegment p = false) (_h2 : hasPfx ['/'] p = false) :
    stripBasePath c (buildPath c p) = normalizePath p :=
  strip_build_eq_normalize c p

/-- C1 witness: concrete instance at base prefix "base", path "a/b". -/
theorem c1_witness :
    hasParentSegment "a/b".data = false ∧ hasPfx ['/'] "a/b".data = false ∧
      stripBasePath cBaseC (buildPath cBaseC "a/b".data) =
        normalizePath "a/b".data :=
  ⟨by decide, by decide,
    c1_strip_build_roundtrip cBaseC "a/b".data (by decide) (by decide)⟩

/-- C3 counterexample: with the configured base prefix "/" (non-empty,
normalizing to empty) and path "a", `buildPath` returns "/a", which has
a leading separator — refuting "the result never has a leading or
trailing separator" as stated for every base prefix. -/
theorem c3_counterexample :
    buildPath cSlashC "a".data = "/a".data ∧
      hasPfx ['/'] (buildPath cSlashC "a".data) = true := by
  decide

/-- C3 amended: `buildPath` is the single-separator join of the
normalized base prefix and normalized path — and its result has no
leading or trailing separator — provided the base prefix is empty or
does not normalize to empty (a non-empty all-slash base prefix such as
"/" instead yields "/" ++ normalized path); the four policy-table rows
hold as stated. -/
theorem c3_buildKey_amended (c : Client) (p : GoStr)
    (h : c.baseDir = [] ∨ normalizePath c.baseDir ≠ []) :
    buildPath c p = joinKey (normalizePath c.baseDir) (normalizePath p) ∧
      hasPfx ['/'] (buildPath c p) = false ∧
      hasSfx ['/'] (buildPath c p) = false ∧
      buildPath cEmptyC [] = [] ∧
      buildPath cEmptyC "a/b".data = "a/b".data ∧
      buildPath cBaseC [] = "base".data ∧
      buildPath cBaseC "a/b".data = "base/a/b".data := by
  refine ⟨?_,
    buildPath_no_leading_slash c p (by simpa [normalizePath] using h),
    buildPath_no_trailing_slash c p, by decide, by decide, by decide,
    by decide⟩
  by_cases hb : c.baseDir = []
  · rw [buildPath_empty_base hb, hb]
    have hnil : normalizePath ([] : GoStr) = [] := rfl
    rw [hnil]
    simp [joinKey]
  · have hB : normalizePath c.baseDir ≠ [] := by
      rcases h with h' | h'
      · exact absurd h' hb
      · exact h'
    by_cases hcp : normalizePath p = []
    · rw [buildPath_base_only hb hcp, hcp]
      simp only [normalizePath] at hB ⊢
      simp [joinKey, hB]
    · rw [buildPath_join hb hcp]
      simp only [normalizePath] at hB hcp ⊢
      simp [joinKey, hB, hcp]

/-- C3 witness: the amended statement instantiated at base prefix
"base" and path "a/b". -/
theorem c3_witness :
    (cBaseC.baseDir = [] ∨ normalizePath cBaseC.baseDir ≠ []) ∧
      buildPath cBaseC "a/b".data =
        joinKey (normalizePath cBaseC.baseDir) (normalizePath "a/b".data) ∧
      hasPfx ['/'] (buildPath cBaseC "a/b".data) = false :=
  ⟨by decide,
    (c3_buildKey_amended cBaseC "a/b".data (by decide)).1,
    (c3_buildKey_amended cBaseC "a/b".data (by decide)).2.1⟩

/- ### Segment-level lemmas for validation -/

/-- The head group of a character split is a prefix of the input. -/
theorem splitHead_pfx (sep : Char) (l : GoStr) :
    hasPfx ((splitOnChar sep l).headD []) l = true := by
  induction l with
  | nil => rfl
  | cons c rest ih =>
    simp only [splitOnChar]
    by_cases hc : c = sep
    · rw [if_pos hc]
      rfl
    · rw [if_neg hc]
      simp only [List.headD_cons, hasPfx]
      simpa using ih

/-- A non-empty group of the slash-split is a substring of the input. -/
theorem mem_split_imp_contains {sep : Char} {dd : GoStr} (hdd : dd ≠ [])
    (l : GoStr) (h : dd ∈ splitOnChar sep l) : containsSub dd l = true := by
  induction l with
  | nil =>
    simp only [splitOnChar, List.mem_singleton] at h
    exact absurd h hdd
  | cons c rest ih =>
    simp only [splitOnChar] at h
    by_cases hc : c = sep
    · rw [if_pos hc] at h
      rcases List.mem_cons.1 h with h1 | h2
      · exact absurd h1 hdd
      · unfold containsSub
        rw [ih h2]
        simp
    · rw [if_neg hc] at h
      rcases List.mem_cons.1 h with h1 | h2
      · have hp : hasPfx dd (c :: rest) = true := by
          rw [h1]
          simp only [hasPfx]
          simpa using splitHead_pfx sep rest
        unfold containsSub
        rw [hp]
        simp
      · have hmem : dd ∈ splitOnChar sep rest :=
          (List.tail_sublist _).subset h2
        unfold containsSub
        rw [ih hmem]
        simp

/-- A path with a ".." segment contains ".." as a substring after
separator canonicalization. -/
theorem hasParentSegment_contains {p : GoStr}
    (h : hasParentSegment p = true) :
    containsSub ['.', '.'] (toSlash p) = true := by
  unfold hasParentSegment at h
  have hmem : ['.', '.'] ∈ splitOnChar '/' (toSlash p) := by
    simpa [List.contains] using List.elem_iff.1 h
  exact mem_split_imp_contains (by decide) _ hmem

/-- A path beginning with a slash still begins with a slash after
separator canonicalization. -/
theorem hasPfx_slash_toSlash {p : GoStr} (h : hasPfx ['/'] p = true) :
    hasPfx ['/'] (toSlash p) = true := by
  cases p with
  | nil => simp [hasPfx] at h
  | cons c rest =>
    rw [hasPfx_slash_cons] at h
    rw [toSlash_cons, hasPfx_slash_cons]
    have hc : c = '/' := by
      have := eq_of_beq h
      exact this.symm
    rw [hc]
    rfl

/-- C8 counterexample: the path "/.." begins with '/', but `ValidatePath`
reports a traversal error, not an absolute-path error, because the ".."
check runs first — refuting "for every path p beginning with '/',
Validate(p) fails with an AbsolutePathError". -/
theorem c8_counterexample :
    hasPfx ['/'] "/..".data = true ∧
      validatePath cBaseC "/..".data =
        .error (.traversal "/..".data) ∧
      validatePath cBaseC "/..".data ≠
        .error (.absolute "/..".data) := by
  decide

/-- C8 amended: every path containing a ".." parent-directory segment
fails validation with a traversal error; every path beginning with '/'
that does not contain ".." as a substring fails with an absolute-path
error (a leading-slash path containing ".." fails with the traversal
error instead). -/
theorem c8_validate_amended (c : Client) (p : GoStr) :
    (hasParentSegment p = true →
      validatePath c p = .error (.traversal p)) ∧
    (hasPfx ['/'] p = true → containsSub ['.', '.'] (toSlash p) = false →
      validatePath c p = .error (.absolute p)) := by
  constructor
  · intro h
    have hc := hasParentSegment_contains h
    simp only [validatePath]
    rw [if_pos hc]
  · intro h1 h2
    simp only [validatePath]
    rw [if_neg (by simp [h2]), if_pos (hasPfx_slash_toSlash h1)]

/-- C8 witness: the amended statement instantiated at the traversal
path "a/../b" and the absolute path "/x". -/
theorem c8_witness :
    validatePath cBaseC "a/../b".data =
        .error (.traversal "a/../b".data) ∧
      validatePath cBaseC "/x".data = .error (.absolute "/x".data) :=
  ⟨(c8_validate_amended cBaseC "a/../b".data).1 (by decide),
    (c8_validate_amended cBaseC "/x".data).2 (by decide) (by decide)⟩

/-- C10: `ValidatePath` reports a traversal error exactly when the
slash-canonicalized path contains ".." as a substring, even inside a
single segment: "a..b" (which has no ".." segment) is rejected, and a
path both absolute and containing ".." — "/.."— is reported as a
traversal error, not an absolute-path error. -/
theorem c10_traversal_iff_contains (c : Client) (p : GoStr) :
    (validatePath c p = .error (.traversal p) ↔
      containsSub ['.', '.'] (toSlash p) = true) ∧
    validatePath cBaseC "a..b".data = .error (.traversal "a..b".data) ∧
    hasParentSegment "a..b".data = false ∧
    validatePath cBaseC "/..".data = .error (.traversal "/..".data) := by
  refine ⟨?_, by decide, by decide, by decide⟩
  constructor
  · intro h
    by_cases hc : containsSub ['.', '.'] (toSlash p) = true
    · exact hc
    · exfalso
      simp only [validatePath] at h
      rw [if_neg hc] at h
      by_cases hp : hasPfx ['/'] (toSlash p) = true
      · rw [if_pos hp] at h
        simp at h
      · rw [if_neg hp] at h
        simp at h
  · intro hc
    simp only [validatePath]
    rw [if_pos hc]

/- ### Folder emulator model (urls.go folder section, objects.go) -/

/-- A storage-layer error from the collaborator, identified by its S3
error code (`minio.ToErrorResponse(err).Code`). -/
structure StorageErr where
  code : GoStr
deriving DecidableEq

/-- Errors surfaced by the folder emulator: a path validation error or
a pass-through storage error. -/
inductive Err where
  | path (e : PathErr)
  | storage (e : StorageErr)
deriving DecidableEq

/-- The "NoSuchKey" S3 error code checked by `FolderExists`. -/
def noSuchKey : GoStr := "NoSuchKey".data

/-- The folder-marker suffix "/.empty" appended to a folder key. -/
def markerSfx : GoStr := "/.empty".data

/-- `FolderExists`: validate, build the marker key
`fullPath + "/.empty"`, and stat it through the collaborator (`stat`
returns `none` on success, the storage error otherwise); "NoSuchKey"
maps to `(false, none)`, success to `(true, none)`, any other error is
propagated. Returns the Go function's `(bool, error)` pair. -/
def folderExists (c : Client) (stat : GoStr → Option StorageErr)
    (folderPath : GoStr) : Bool × Option Err :=
  match validatePath c folderPath with
  | .error e => (false, some (.path e))
  | .ok _ =>
    let fullPath := buildPath c folderPath
    let filePath := fullPath ++ markerSfx
    match stat filePath with
    | none => (true, none)
    | some e =>
      if e.code = noSuchKey then (false, none)
      else (false, some (.storage e))

/-- A write issued to the collaborator by `PutObject`: target key and
declared size (folder markers are zero-length). -/
structure WriteOp where
  key : GoStr
  size : Nat
deriving DecidableEq

/-- `CreateFolder`: validate, check `FolderExists`; when it reports
`true` return success issuing no write; when it reports an error return
that error with no write; otherwise put a zero-length object at the
marker key (`put` is the collaborator's PutObject result). Returns the
call result together with the writes issued. -/
def createFolder (c : Client) (stat : GoStr → Option StorageErr)
    (put : GoStr → Nat → Option StorageErr) (folderPath : GoStr) :
    Option Err × List WriteOp :=
  match validatePath c folderPath with
  | .error e => (some (.path e), [])
  | .ok _ =>
    match folderExists c stat folderPath with
    | (true, _) => (none, [])
    | (false, some e) => (some e, [])
    | (false, none) =>
      let fullPath := buildPath c folderPath
      let filePath := fullPath ++ markerSfx
      ((put filePath 0).map Err.storage, [⟨filePath, 0⟩])

/-- Stat oracle induced by a storage state: the state is the list of
existing keys (all contents are zero-length); a missing key yields
"NoSuchKey". -/
def statOf (σ : List GoStr) (k : GoStr) : Option StorageErr :=
  if σ.contains k then none else some ⟨noSuchKey⟩

/-- Sequential `CreateFolder` against a key-set storage state: run
`createFolder` with the state-induced stat oracle and an
always-succeeding put, then apply the issued writes to the state. -/
def createFolderS (c : Client) (σ : List GoStr) (folderPath : GoStr) :
    Option Err × List GoStr :=
  let r := createFolder c (statOf σ) (fun _ _ => none) folderPath
  (r.1, r.2.foldl (fun s w => w.key :: s) σ)

/-- One entry of the bulk-delete result stream
(`minio.RemoveObjectError`). -/
structure RemoveRes where
  objectName : GoStr
  err : Option StorageErr
deriving DecidableEq

/-- The error loop of `RemoveFolder`: return the first reported
per-object failure, `none` when the stream reports none. -/
def firstRemoveErr : List RemoveRes → Option StorageErr
  | [] => none
  | r :: rest =>
    match r.err with
    | some e => some e
    | none => firstRemoveErr rest

/-- `RemoveFolder`: validate, build the folder key, append a trailing
slash when missing, then list-and-bulk-delete everything under that
key (`rmRes` maps the listing key to the collaborator's removal result
stream) and fail on the first reported per-object error. -/
def removeFolder (c : Client) (rmRes : GoStr → List RemoveRes)
    (folderPath : GoStr) : Option Err :=
  match validatePath c folderPath with
  | .error e => some (.path e)
  | .ok _ =>
    let fullPath := buildPath c folderPath
    let fullPath := if hasSfx ['/'] fullPath then fullPath
      else fullPath ++ ['/']
    (firstRemoveErr (rmRes fullPath)).map Err.storage

/-- One entry of a listing stream (`minio.ObjectInfo`): key and error
field. -/
structure ObjInfo where
  key : GoStr
  err : Option Err
deriving DecidableEq

/-- One loop step's folder-name extraction in `ListFolders`: strip the
base prefix from the entry's key, strip the caller's own relative
prefix when non-empty, split on '/', and yield the first segment when
there is more than one segment and the first is non-empty. -/
def folderNameOf (c : Client) (pfx : GoStr) (o : ObjInfo) : Option GoStr :=
  let relativePath := stripBasePath c o.key
  let relativePath :=
    if pfx ≠ [] then trimPfxOf (trimSlash pfx ++ ['/']) relativePath
    else relativePath
  let parts := splitOnChar '/' relativePath
  if parts.length > 1 ∧ parts.headD [] ≠ [] then some (parts.headD [])
  else none

/-- The entry loop of `ListFolders`: abort on an entry error, otherwise
append each newly seen folder name (the accumulator list plays the role
of the Go `seenFolders` set: a name is in the set exactly when it has
been appended). -/
def collectFolders (c : Client) (pfx : GoStr) :
    List ObjInfo → List GoStr → Except Err (List GoStr)
  | [], folders => .ok folders
  | o :: rest, folders =>
    match o.err with
    | some e => .error e
    | none =>
      match folderNameOf c pfx o with
      | some name =>
        if folders.contains name then collectFolders c pfx rest folders
        else collectFolders c pfx rest (folders ++ [name])
      | none => collectFolders c pfx rest folders

/-- The body of `ListFolders` after validation: build the full listing
key, ensure one trailing slash when it is non-empty, run the
collaborator's non-recursive listing and collect folder names. -/
def listFoldersCore (c : Client) (backend : GoStr → Bool → List ObjInfo)
    (pfx : GoStr) : Except Err (List GoStr) :=
  let fullP0 := buildPath c pfx
  let fullP := if fullP0 ≠ [] ∧ hasSfx ['/'] fullP0 = false
    then fullP0 ++ ['/'] else fullP0
  collectFolders c pfx (backend fullP false) []

/-- `ListFolders`: validate a non-empty relative listing key (the empty
string skips validation), then run the listing body. -/
def listFolders (c : Client) (backend : GoStr → Bool → List ObjInfo)
    (pfx : GoStr) : Except Err (List GoStr) :=
  if pfx ≠ [] then
    match validatePath c pfx with
    | .error e => .error (.path e)
    | .ok _ => listFoldersCore c backend pfx
  else listFoldersCore c backend pfx

/-- The body of `ListObjects` after validation (objects.go:95-121):
list through the backend under the built key and strip the base prefix
from each error-free entry's key. -/
def listObjectsCore (c : Client) (backend : GoStr → Bool → List ObjInfo)
    (pfx : GoStr) (recursive : Bool) : List ObjInfo :=
  (backend (buildPath c pfx) recursive).map fun o =>
    if o.err = none then { o with key := stripBasePath c o.key } else o

/-- `ListObjects` (objects.go:84-122): a non-empty invalid listing key
yields a single error entry without consulting the backend; otherwise
run the listing body. -/
def listObjects (c : Client) (backend : GoStr → Bool → List ObjInfo)
    (pfx : GoStr) (recursive : Bool) : List ObjInfo :=
  if pfx ≠ [] then
    match validatePath c pfx with
    | .error e => [⟨[], some (.path e)⟩]
    | .ok _ => listObjectsCore c backend pfx recursive
  else listObjectsCore c backend pfx recursive

/-- Spec-side first-seen deduplicating append, describing the
`ListFolders` accumulation. -/
def dedupAppend (folders : List GoStr) : List GoStr → List GoStr
  | [] => folders
  | n :: ns =>
    if folders.contains n then dedupAppend folders ns
    else dedupAppend (folders ++ [n]) ns

/- ### Folder emulator lemmas -/

theorem contains_eq_mem {l : List GoStr} {x : GoStr} :
    l.contains x = true ↔ x ∈ l := by
  simp [List.contains, List.elem_iff]

theorem contains_cons_self (x : GoStr) (l : List GoStr) :
    (x :: l).contains x = true :=
  contains_eq_mem.2 (List.mem_cons_self x l)

/-- `FolderExists` on a valid path is determined by the stat of the
marker key alone. -/
theorem folderExists_eq (c : Client) (st : GoStr → Option StorageErr)
    (p : GoStr) (h : validatePath c p = .ok ()) :
    folderExists c st p =
      (match st (buildPath c p ++ markerSfx) with
       | none => (true, none)
       | some e =>
         if e.code = noSuchKey then (false, none)
         else (false, some (.storage e))) := by
  unfold folderExists
  rw [h]

/-- `CreateFolder` on a valid path is determined by `FolderExists` and
the put oracle. -/
theorem createFolder_eq (c : Client) (st : GoStr → Option StorageErr)
    (pu : GoStr → Nat → Option StorageErr) (p : GoStr)
    (h : validatePath c p = .ok ()) :
    createFolder c st pu p =
      (match folderExists c st p with
       | (true, _) => (none, [])
       | (false, some e) => (some e, [])
       | (false, none) =>
         ((pu (buildPath c p ++ markerSfx) 0).map Err.storage,
           [⟨buildPath c p ++ markerSfx, 0⟩])) := by
  unfold createFolder
  rw [h]

/-- C4: `FolderExists(path)` is decided solely by the stat of the
marker object at `BuildKey(path) + "/.empty"`: success maps to
`(true, no error)`, "NoSuchKey" maps to `(false, no error)`, any other
storage error is propagated; and two stat oracles agreeing at the
marker key (regardless of what other objects exist under the folder's
key) give identical results. -/
theorem c4_folderExists_marker (c : Client)
    (stat stat2 : GoStr → Option StorageErr) (p : GoStr)
    (h : validatePath c p = .ok ()) :
    (stat (buildPath c p ++ markerSfx) = none →
      folderExists c stat p = (true, none)) ∧
    (∀ e, stat (buildPath c p ++ markerSfx) = some e →
      e.code = noSuchKey → folderExists c stat p = (false, none)) ∧
    (∀ e, stat (buildPath c p ++ markerSfx) = some e →
      e.code ≠ noSuchKey →
      folderExists c stat p = (false, some (.storage e))) ∧
    (stat2 (buildPath c p ++ markerSfx) = stat (buildPath c p ++ markerSfx) →
      folderExists c stat2 p = folderExists c stat p) := by
  refine ⟨?_, ?_, ?_, ?_⟩
  · intro hs
    rw [folderExists_eq c stat p h, hs]
  · intro e hs he
    rw [folderExists_eq c stat p h, hs]
    simp [he]
  · intro e hs he
    rw [folderExists_eq c stat p h, hs]
    simp [he]
  · intro heq
    rw [folderExists_eq c stat p h, folderExists_eq c stat2 p h, heq]

/-- A stat oracle for a bucket holding exactly the folder marker
"base/images/.empty". -/
def statHasMarker (k : GoStr) : Option StorageErr :=
  if k = "base/images/.empty".data then none else some ⟨noSuchKey⟩

/-- A stat oracle for a bucket holding only the object
"base/images/x.png" — content under the folder, but no marker. -/
def statOnlyObject (k : GoStr) : Option StorageErr :=
  if k = "base/images/x.png".data then none else some ⟨noSuchKey⟩

/-- C4 witness: with the marker present `FolderExists("images")` is
true; with only other content under the folder and the marker absent it
is false without error. -/
theorem c4_witness :
    folderExists cBaseC statHasMarker "images".data = (true, none) ∧
      folderExists cBaseC statOnlyObject "images".data = (false, none) :=
  ⟨(c4_folderExists_marker cBaseC statHasMarker statHasMarker "images".data
      (by decide)).1 (by decide),
    (c4_folderExists_marker cBaseC statOnlyObject statOnlyObject
      "images".data (by decide)).2.1 ⟨noSuchKey⟩ (by decide) (by decide)⟩

/-- C6: `CreateFolder` is idempotent: when `FolderExists` reports true
it returns success issuing no write; when the existence check reports
an error, that error is returned with no write attempted; when it
reports false, exactly one zero-length write at the marker key is
issued; and against a key-set storage state a second sequential call
succeeds without changing the state. -/
theorem c6_createFolder_idempotent (c : Client)
    (stat : GoStr → Option StorageErr)
    (put : GoStr → Nat → Option StorageErr) (p : GoStr)
    (h : validatePath c p = .ok ()) :
    (∀ b, folderExists c stat p = (true, b) →
      createFolder c stat put p = (none, [])) ∧
    (∀ e, folderExists c stat p = (false, some e) →
      createFolder c stat put p = (some e, [])) ∧
    (folderExists c stat p = (false, none) →
      createFolder c stat put p =
        ((put (buildPath c p ++ markerSfx) 0).map Err.storage,
          [⟨buildPath c p ++ markerSfx, 0⟩])) ∧
    (∀ σ, (createFolderS c σ p).1 = none →
      createFolderS c (createFolderS c σ p).2 p =
        (none, (createFolderS c σ p).2)) := by
  refine ⟨?_, ?_, ?_, ?_⟩
  · intro b hfe
    rw [createFolder_eq c stat put p h, hfe]
  · intro e hfe
    rw [createFolder_eq c stat put p h, hfe]
  · intro hfe
    rw [createFolder_eq c stat put p h, hfe]
  · intro σ _h1
    cases hcm : σ.contains (buildPath c p ++ markerSfx) with
    | true =>
      have hst : statOf σ (buildPath c p ++ markerSfx) = none := by
        unfold statOf
        rw [if_pos hcm]
      have hfe : folderExists c (statOf σ) p = (true, none) := by
        rw [folderExists_eq c (statOf σ) p h, hst]
      have hcf : createFolder c (statOf σ) (fun _ _ => none) p =
          (none, []) := by
        rw [createFolder_eq c _ _ p h, hfe]
      have hσ1 : (createFolderS c σ p).2 = σ := by
        simp [createFolderS, hcf]
      rw [hσ1]
      simp [createFolderS, hcf]
    | false =>
      have hst : statOf σ (buildPath c p ++ markerSfx) =
          some ⟨noSuchKey⟩ := by
        unfold statOf
        rw [if_neg (by rw [hcm]; simp)]
      have hfe : folderExists c (statOf σ) p = (false, none) := by
        rw [folderExists_eq c (statOf σ) p h, hst]
        simp
      have hcf : createFolder c (statOf σ) (fun _ _ => none) p =
          (none, [⟨buildPath c p ++ markerSfx, 0⟩]) := by
        rw [createFolder_eq c _ _ p h, hfe]
        simp
      have hσ1 : (createFolderS c σ p).2 =
          (buildPath c p ++ markerSfx) :: σ := by
        simp [createFolderS, hcf]
      rw [hσ1]
      have hst2 : statOf ((buildPath c p ++ markerSfx) :: σ)
          (buildPath c p ++ markerSfx) = none := by
        unfold statOf
        rw [if_pos (contains_cons_self _ _)]
      have hfe2 : folderExists c
          (statOf ((buildPath c p ++ markerSfx) :: σ)) p =
          (true, none) := by
        rw [folderExists_eq c _ p h, hst2]
      have hcf2 : createFolder c
          (statOf ((buildPath c p ++ markerSfx) :: σ))
          (fun _ _ => none) p = (none, []) := by
        rw [createFolder_eq c _ _ p h, hfe2]
      simp [createFolderS, hcf2]

/-- C6 witness: starting from the empty bucket state, the first
`CreateFolder("images")` call succeeds and a second sequential call
succeeds without altering the stored keys. -/
theorem c6_witness :
    createFolderS cBaseC ((createFolderS cBaseC [] "images".data).2)
        "images".data =
      (none, (createFolderS cBaseC [] "images".data).2) :=
  (c6_createFolder_idempotent cBaseC (statOf []) (fun _ _ => none)
    "images".data (by decide)).2.2.2 [] (by decide)

/-- The first failure in a result stream with an error-free front is
the failing entry's error. -/
theorem firstRemoveErr_append {pre : List RemoveRes} {r : RemoveRes}
    {post : List RemoveRes} {e : StorageErr}
    (hpre : ∀ x ∈ pre, x.err = none) (hr : r.err = some e) :
    firstRemoveErr (pre ++ r :: post) = some e := by
  induction pre with
  | nil =>
    simp only [List.nil_append, firstRemoveErr, hr]
  | cons x xs ih =>
    have hx : x.err = none := hpre x (List.mem_cons_self _ _)
    simp only [List.cons_append, firstRemoveErr, hx]
    exact ih fun y hy => hpre y (List.mem_cons_of_mem _ hy)

/-- The bulk-delete loop reports no error exactly when no entry of the
stream carries one. -/
theorem firstRemoveErr_none_iff (rs : List RemoveRes) :
    firstRemoveErr rs = none ↔ ∀ x ∈ rs, x.err = none := by
  induction rs with
  | nil => simp [firstRemoveErr]
  | cons x xs ih =>
    cases hx : x.err with
    | none =>
      simp only [firstRemoveErr, hx, ih, List.mem_cons]
      constructor
      · intro hall y hy
        rcases hy with rfl | hy
        · exact hx
        · exact hall y hy
      · intro hall y hy
        exact hall y (Or.inr hy)
    | some e =>
      simp only [firstRemoveErr, hx]
      constructor
      · intro hc
        simp at hc
      · intro hall
        have := hall x (List.mem_cons_self _ _)
        rw [hx] at this
        simp at this

/-- C5: `RemoveFolder` validates, lists-and-deletes under the built key
with exactly one appended trailing separator (the built key itself
never ends in one), and returns the first per-object deletion failure
reported by the bulk operation — later failures are not inspected; it
succeeds exactly when no per-object failure is reported. -/
theorem c5_removeFolder_first_failure (c : Client)
    (rmRes : GoStr → List RemoveRes) (p : GoStr)
    (h : validatePath c p = .ok ()) :
    removeFolder c rmRes p =
      (firstRemoveErr (rmRes (buildPath c p ++ ['/']))).map Err.storage ∧
    hasSfx ['/'] (buildPath c p) = false ∧
    (∀ pre r post e, rmRes (buildPath c p ++ ['/']) = pre ++ r :: post →
      (∀ x ∈ pre, x.err = none) → r.err = some e →
      removeFolder c rmRes p = some (.storage e)) ∧
    (removeFolder c rmRes p = none ↔
      ∀ x ∈ rmRes (buildPath c p ++ ['/']), x.err = none) := by
  have hsfx := buildPath_no_trailing_slash c p
  have key : removeFolder c rmRes p =
      (firstRemoveErr (rmRes (buildPath c p ++ ['/']))).map Err.storage := by
    unfold removeFolder
    rw [h]
    simp only [hsfx]
    simp
  refine ⟨key, hsfx, ?_, ?_⟩
  · intro pre r post e hsplit hpre hr
    rw [key, hsplit, firstRemoveErr_append hpre hr]
    rfl
  · rw [key]
    constructor
    · intro hn
      refine (firstRemoveErr_none_iff _).1 ?_
      cases hq : firstRemoveErr (rmRes (buildPath c p ++ ['/'])) with
      | none => rfl
      | some e =>
        rw [hq] at hn
        simp at hn
    · intro hall
      rw [(firstRemoveErr_none_iff _).2 hall]
      rfl

/-- A removal stream for the folder "f": deleting "base/f/a" succeeds,
then two failures follow. -/
def rmStreamW (_k : GoStr) : List RemoveRes :=
  [⟨"base/f/a".data, none⟩,
    ⟨"base/f/b".data, some ⟨"AccessDenied".data⟩⟩,
    ⟨"base/f/.empty".data, some ⟨"InternalError".data⟩⟩]

/-- C5 witness: `RemoveFolder("f")` returns the first reported
per-object failure ("AccessDenied"), not the later one. -/
theorem c5_witness :
    removeFolder cBaseC rmStreamW "f".data =
      some (.storage ⟨"AccessDenied".data⟩) :=
  (c5_removeFolder_first_failure cBaseC rmStreamW "f".data
      (by decide)).2.2.1
    [⟨"base/f/a".data, none⟩]
    ⟨"base/f/b".data, some ⟨"AccessDenied".data⟩⟩
    [⟨"base/f/.empty".data, some ⟨"InternalError".data⟩⟩]
    ⟨"AccessDenied".data⟩ (by decide) (by decide) (by decide)

/-- The entry loop over an error-free listing accumulates exactly the
first-seen-deduplicated folder names. -/
theorem collectFolders_ok (c : Client) (pfx : GoStr) :
    ∀ (entries : List ObjInfo) (acc : List GoStr),
      (∀ o ∈ entries, o.err = none) →
      collectFolders c pfx entries acc =
        .ok (dedupAppend acc (entries.filterMap (folderNameOf c pfx))) := by
  intro entries
  induction entries with
  | nil => intro acc _; rfl
  | cons o rest ih =>
    intro acc hall
    have ho : o.err = none := hall o (List.mem_cons_self _ _)
    have hrest : ∀ x ∈ rest, x.err = none :=
      fun x hx => hall x (List.mem_cons_of_mem _ hx)
    simp only [collectFolders, ho, List.filterMap_cons]
    cases hfn : folderNameOf c pfx o with
    | none => exact ih acc hrest
    | some name =>
      simp only [dedupAppend]
      by_cases hc : acc.contains name = true
      · simp only [if_pos hc]
        exact ih acc hrest
      · simp only [if_neg hc]
        exact ih (acc ++ [name]) hrest

/-- An error entry after an error-free front aborts the entry loop with
that error. -/
theorem collectFolders_err (c : Client) (pfx : GoStr) :
    ∀ (pre : List ObjInfo) (o : ObjInfo) (post : List ObjInfo) (e : Err)
      (acc : List GoStr),
      (∀ x ∈ pre, x.err = none) → o.err = some e →
      collectFolders c pfx (pre ++ o :: post) acc = .error e := by
  intro pre
  induction pre with
  | nil =>
    intro o post e acc _ ho
    simp only [List.nil_append, collectFolders, ho]
  | cons x xs ih =>
    intro o post e acc hall ho
    have hx : x.err = none := hall x (List.mem_cons_self _ _)
    have hxs : ∀ y ∈ xs, y.err = none :=
      fun y hy => hall y (List.mem_cons_of_mem _ hy)
    simp only [List.cons_append, collectFolders, hx]
    cases hfn : folderNameOf c pfx x with
    | none => exact ih o post e acc hxs ho
    | some name =>
      by_cases hc : acc.contains name = true
      · simp only [if_pos hc]
        exact ih o post e acc hxs ho
      · simp only [if_neg hc]
        exact ih o post e (acc ++ [name]) hxs ho

/-- First-seen deduplication preserves freedom from duplicates. -/
theorem dedupAppend_nodup :
    ∀ (ns acc : List GoStr), acc.Nodup → (dedupAppend acc ns).Nodup := by
  intro ns
  induction ns with
  | nil => intro acc h; exact h
  | cons n ns ih =>
    intro acc h
    simp only [dedupAppend]
    by_cases hc : acc.contains n = true
    · simp only [if_pos hc]
      exact ih acc h
    · simp only [if_neg hc]
      refine ih (acc ++ [n]) ?_
      have hn : n ∉ acc := fun hm => hc (contains_eq_mem.2 hm)
      simp [List.nodup_append, h, hn]

/-- Membership in the first-seen deduplication is membership in the
candidate sequence (or the initial accumulator). -/
theorem mem_dedupAppend :
    ∀ (ns acc : List GoStr) (x : GoStr),
      x ∈ dedupAppend acc ns ↔ x ∈ acc ∨ x ∈ ns := by
  intro ns
  induction ns with
  | nil => intro acc x; simp [dedupAppend]
  | cons n ns ih =>
    intro acc x
    simp only [dedupAppend]
    by_cases hc : acc.contains n = true
    · simp only [if_pos hc]
      rw [ih]
      have hn : n ∈ acc := contains_eq_mem.1 hc
      simp only [List.mem_cons]
      constructor
      · rintro (hh | hh)
        · exact Or.inl hh
        · exact Or.inr (Or.inr hh)
      · rintro (hh | hh | hh)
        · exact Or.inl hh
        · exact Or.inl (hh ▸ hn)
        · exact Or.inr hh
    · simp only [if_neg hc]
      rw [ih]
      simp [List.mem_append, List.mem_cons, or_assoc]

/-- Validation-irrelevant runs of `ListFolders` reduce to the body. -/
theorem listFolders_run (c : Client)
    (backend : GoStr → Bool → List ObjInfo) (pfx : GoStr)
    (hv : pfx = [] ∨ validatePath c pfx = .ok ()) :
    listFolders c backend pfx = listFoldersCore c backend pfx := by
  rcases hv with rfl | hv
  · simp [listFolders]
  · unfold listFolders
    by_cases hp : pfx = []
    · simp [hp]
    · rw [if_pos hp, hv]

/-- C7: over any backend listing, `ListFolders` returns exactly the
first-seen deduplication of the first path segments of those entries
whose key — after stripping the base prefix and the caller's relative
listing key — splits on '/' into more than one segment with a non-empty
first segment; the result has no duplicates and contains exactly the
candidate names; an error entry (after an error-free front) aborts the
call with that error; and the concrete example over
{"docs/a.txt", "docs/b/c.txt", "img/x.png"} returns ["docs", "img"]. -/
theorem c7_listFolders_dedup (c : Client) (pfx : GoStr)
    (entries : List ObjInfo)
    (hv : pfx = [] ∨ validatePath c pfx = .ok ()) :
    ((∀ o ∈ entries, o.err = none) →
      listFolders c (fun _ _ => entries) pfx =
        .ok (dedupAppend [] (entries.filterMap (folderNameOf c pfx)))) ∧
    (dedupAppend [] (entries.filterMap (folderNameOf c pfx))).Nodup ∧
    (∀ x, x ∈ dedupAppend [] (entries.filterMap (folderNameOf c pfx)) ↔
      x ∈ entries.filterMap (folderNameOf c pfx)) ∧
    (∀ pre o post e, entries = pre ++ o :: post →
      (∀ x ∈ pre, x.err = none) → o.err = some e →
      listFolders c (fun _ _ => entries) pfx = .error e) ∧
    listFolders cEmptyC (fun _ _ =>
        [⟨"docs/a.txt".data, none⟩, ⟨"docs/b/c.txt".data, none⟩,
          ⟨"img/x.png".data, none⟩]) [] =
      .ok ["docs".data, "img".data] := by
  refine ⟨?_, dedupAppend_nodup _ _ (by simp), ?_, ?_, by decide⟩
  · intro hall
    rw [listFolders_run c _ pfx hv]
    simp only [listFoldersCore]
    exact collectFolders_ok c pfx entries [] hall
  · intro x
    rw [mem_dedupAppend]
    simp
  · intro pre o post e hsplit hpre ho
    rw [listFolders_run c _ pfx hv]
    simp only [listFoldersCore]
    rw [hsplit]
    exact collectFolders_err c pfx pre o post e [] hpre ho

/-- C7 witness: the statement instantiated at the root listing over the
three-object example. -/
theorem c7_witness :
    listFolders cEmptyC (fun _ _ =>
        [⟨"docs/a.txt".data, none⟩, ⟨"docs/b/c.txt".data, none⟩,
          ⟨"img/x.png".data, none⟩]) [] =
      .ok ["docs".data, "img".data] :=
  (c7_listFolders_dedup cEmptyC []
      [⟨"docs/a.txt".data, none⟩, ⟨"docs/b/c.txt".data, none⟩,
        ⟨"img/x.png".data, none⟩] (Or.inl rfl)).2.2.2.2

/- ### Pass-through operation models (objects.go, urls.go, the tagging,
retention, legal hold and select file) -/

/-- The request a pass-through operation sends to the collaborator:
configured bucket plus built key. -/
structure Request where
  bucket : GoStr
  key : GoStr
deriving DecidableEq

/-- `StatObject` (objects.go:13-31): validate, then stat bucket+key. -/
def statObjectReq (c : Client) (p : GoStr) : Except PathErr Request :=
  match validatePath c p with
  | .error e => .error e
  | .ok _ => .ok ⟨c.bucketName, buildPath c p⟩

/-- `GetObject` (objects.go:34-45): validate, then get bucket+key. -/
def getObjectReq (c : Client) (p : GoStr) : Except PathErr Request :=
  match validatePath c p with
  | .error e => .error e
  | .ok _ => .ok ⟨c.bucketName, buildPath c p⟩

/-- `PutObject` (objects.go:48-67): validate, then put bucket+key. -/
def putObjectReq (c : Client) (p : GoStr) : Except PathErr Request :=
  match validatePath c p with
  | .error e => .error e
  | .ok _ => .ok ⟨c.bucketName, buildPath c p⟩

/-- `RemoveObject` (objects.go:70-81): validate, then remove
bucket+key. -/
def removeObjectReq (c : Client) (p : GoStr) : Except PathErr Request :=
  match validatePath c p with
  | .error e => .error e
  | .ok _ => .ok ⟨c.bucketName, buildPath c p⟩

/-- `GetObjectTagging`: validate, then request bucket+key. -/
def getObjectTaggingReq (c : Client) (p : GoStr) : Except PathErr Request :=
  match validatePath c p with
  | .error e => .error e
  | .ok _ => .ok ⟨c.bucketName, buildPath c p⟩

/-- `PutObjectTagging`: validate, then request bucket+key. -/
def putObjectTaggingReq (c : Client) (p : GoStr) : Except PathErr Request :=
  match validatePath c p with
  | .error e => .error e
  | .ok _ => .ok ⟨c.bucketName, buildPath c p⟩

/-- `RemoveObjectTagging`: validate, then request bucket+key. -/
def removeObjectTaggingReq (c : Client) (p : GoStr) :
    Except PathErr Request :=
  match validatePath c p with
  | .error e => .error e
  | .ok _ => .ok ⟨c.bucketName, buildPath c p⟩

/-- `GetObjectRetention`: validate, then request bucket+key. -/
def getObjectRetentionReq (c : Client) (p : GoStr) :
    Except PathErr Request :=
  match validatePath c p with
  | .error e => .error e
  | .ok _ => .ok ⟨c.bucketName, buildPath c p⟩

/-- `PutObjectRetention`: validate, then request bucket+key. -/
def putObjectRetentionReq (c : Client) (p : GoStr) :
    Except PathErr Request :=
  match validatePath c p with
  | .error e => .error e
  | .ok _ => .ok ⟨c.bucketName, buildPath c p⟩

/-- `GetObjectLegalHold`: validate, then request bucket+key. -/
def getObjectLegalHoldReq (c : Client) (p : GoStr) :
    Except PathErr Request :=
  match validatePath c p with
  | .error e => .error e
  | .ok _ => .ok ⟨c.bucketName, buildPath c p⟩

/-- `PutObjectLegalHold`: validate, then request bucket+key. -/
def putObjectLegalHoldReq (c : Client) (p : GoStr) :
    Except PathErr Request :=
  match validatePath c p with
  | .error e => .error e
  | .ok _ => .ok ⟨c.bucketName, buildPath c p⟩

/-- `GetPresignedURL` (urls.go:16-29): validate, then presign
bucket+key. -/
def getPresignedURLReq (c : Client) (p : GoStr) : Except PathErr Request :=
  match validatePath c p with
  | .error e => .error e
  | .ok _ => .ok ⟨c.bucketName, buildPath c p⟩

/-- `GetPresignedPutURL` (urls.go:48-61): validate, then presign
bucket+key. -/
def getPresignedPutURLReq (c : Client) (p : GoStr) :
    Except PathErr Request :=
  match validatePath c p with
  | .error e => .error e
  | .ok _ => .ok ⟨c.bucketName, buildPath c p⟩

/-- `PresignedHeadObject` (urls.go:144-157): validate, then presign
bucket+key. -/
def presignedHeadObjectReq (c : Client) (p : GoStr) :
    Except PathErr Request :=
  match validatePath c p with
  | .error e => .error e
  | .ok _ => .ok ⟨c.bucketName, buildPath c p⟩

/-- `PresignedPostPolicyForUpload` (urls.go:160-184): validate, then
build a policy for bucket+key. -/
def presignedPostUploadReq (c : Client) (p : GoStr) :
    Except PathErr Request :=
  match validatePath c p with
  | .error e => .error e
  | .ok _ => .ok ⟨c.bucketName, buildPath c p⟩

/-- The errors `GetPublicURL` can return: the "public base URL not
configured" configuration error, or a validation error. -/
inductive PublicURLErr where
  | notConfigured
  | path (e : PathErr)
deriving DecidableEq

/-- `GetPublicURL` (urls.go:73-91): when no public base URL is
configured, return the configuration error — this check runs before
validation; otherwise validate, then produce a URL for bucket + built
key. -/
def getPublicURLReq (c : Client) (p : GoStr) : Except PublicURLErr Request :=
  if c.publicBaseURL = [] then .error .notConfigured
  else
    match validatePath c p with
    | .error e => .error (.path e)
    | .ok _ => .ok ⟨c.bucketName, buildPath c p⟩

/-- `SelectObjectContent` (the select file, lines 120-131): the source
deliberately skips `ValidatePath` ("We don't validate path here") and
sends the built key directly. -/
def selectObjectContentReq (c : Client) (p : GoStr) :
    Except PathErr Request :=
  .ok ⟨c.bucketName, buildPath c p⟩

/-- Caller-facing copy destination options (`minio.CopyDestOptions`):
bucket, object key and representative remaining fields (user metadata,
its replace flag, user tags); Go's zero value leaves them
empty/false. -/
structure CopyDestOptions where
  bucket : GoStr := []
  object : GoStr := []
  userMetadata : List (GoStr × GoStr) := []
  replaceMetadata : Bool := false
  userTags : List (GoStr × GoStr) := []
deriving DecidableEq

/-- Copy source options (`minio.CopySrcOptions`): bucket and object. -/
structure CopySrcOptions where
  bucket : GoStr := []
  object : GoStr := []
deriving DecidableEq

/-- `CopyObject` (objects.go:125-159): validate both paths, then send a
freshly constructed destination record holding only the configured
bucket and built destination key — the caller's `opts` argument is
never consulted — plus source options with bucket and built source key.
Returns the forwarded pair. -/
def copyObject (c : Client) (destObjectPath srcObjectPath : GoStr)
    (_opts : CopyDestOptions) :
    Except PathErr (CopyDestOptions × CopySrcOptions) :=
  match validatePath c destObjectPath with
  | .error e => .error e
  | .ok _ =>
    match validatePath c srcObjectPath with
    | .error e => .error e
    | .ok _ =>
      let fullDestPath := buildPath c destObjectPath
      let fullSrcPath := buildPath c srcObjectPath
      .ok ({ bucket := c.bucketName, object := fullDestPath },
        { bucket := c.bucketName, object := fullSrcPath })

/-- The source loop of `ComposeObject` (urls.go:102-110): a source in
the configured bucket is validated (the first failure aborts with a
wrapped error) and its key rebuilt; other sources pass unchanged. -/
def composeSrcs (c : Client) : List CopySrcOptions →
    Except PathErr (List CopySrcOptions)
  | [] => .ok []
  | s :: rest =>
    if s.bucket = c.bucketName then
      match validatePath c s.object with
      | .error e => .error (.invalidSource s.object e)
      | .ok _ =>
        match composeSrcs c rest with
        | .error e => .error e
        | .ok rest2 => .ok ({ s with object := buildPath c s.object } :: rest2)
    else
      match composeSrcs c rest with
      | .error e => .error e
      | .ok rest2 => .ok (s :: rest2)

/-- `ComposeObject` (urls.go:94-129): validate the destination path,
process the sources, then compose into bucket + built destination
key. -/
def composeObjectReq (c : Client) (destObjectPath : GoStr)
    (srcs : List CopySrcOptions) :
    Except PathErr (Request × List CopySrcOptions) :=
  match validatePath c destObjectPath with
  | .error e => .error e
  | .ok _ =>
    match composeSrcs c srcs with
    | .error e => .error e
    | .ok srcs2 => .ok (⟨c.bucketName, buildPath c destObjectPath⟩, srcs2)

/-- C9: `CopyObject` forwards a destination-options record holding only
the configured bucket and built destination key; every field of the
caller-supplied `opts` (metadata, tags, flags) is discarded, so the
request is independent of `opts`. -/
theorem c9_copyObject_ignores_opts (c : Client) (dest src : GoStr)
    (opts opts2 : CopyDestOptions) :
    copyObject c dest src opts = copyObject c dest src opts2 ∧
    (validatePath c dest = .ok () → validatePath c src = .ok () →
      copyObject c dest src opts =
        .ok ({ bucket := c.bucketName, object := buildPath c dest,
               userMetadata := [], replaceMetadata := false,
               userTags := [] },
          { bucket := c.bucketName, object := buildPath c src })) := by
  refine ⟨rfl, ?_⟩
  intro h1 h2
  unfold copyObject
  rw [h1, h2]

/-- C9 witness: heavily populated caller options are discarded; the
collaborator receives only bucket and keys. -/
theorem c9_witness :
    copyObject cBaseC "d.txt".data "s.txt".data
        { bucket := "other".data, object := "weird".data,
          userMetadata := [("k".data, "v".data)], replaceMetadata := true,
          userTags := [("t".data, "u".data)] } =
      .ok ({ bucket := "bkt".data, object := "base/d.txt".data,
             userMetadata := [], replaceMetadata := false,
             userTags := [] },
        { bucket := "bkt".data, object := "base/s.txt".data }) := by
  rw [(c9_copyObject_ignores_opts cBaseC "d.txt".data "s.txt".data
    { bucket := "other".data, object := "weird".data,
      userMetadata := [("k".data, "v".data)], replaceMetadata := true,
      userTags := [("t".data, "u".data)] } { }).2 (by decide) (by decide)]
  decide

/-- C2 counterexample: "../x" fails validation, yet
`SelectObjectContent` issues a request for it (built key included)
instead of returning the validation error — refuting "every operation
that accepts a caller-supplied path calls Validate ... before any
request is issued". -/
theorem c2_counterexample :
    validatePath cBaseC "../x".data = .error (.traversal "../x".data) ∧
      selectObjectContentReq cBaseC "../x".data =
        .ok ⟨"bkt".data, "base/../x".data⟩ := by
  decide

/-- C2 amended: every path-accepting operation except
`SelectObjectContent` and unconfigured `GetPublicURL` — object
get/put/stat/remove/copy/compose, tagging, retention, legal hold,
presigned URLs, folder operations, and non-empty listing keys —
returns the validation error before any request reaches the
collaborator; the empty listing key skips validation;
`SelectObjectContent` deliberately skips validation and always issues
the request; and `GetPublicURL` checks for a configured public base
URL before validating, so with none configured it returns the
configuration error, and only with one configured does it return the
validation error. -/
theorem c2_validate_first_amended (c : Client) (p : GoStr) (e : PathErr)
    (h : validatePath c p = .error e) :
    statObjectReq c p = .error e ∧
    getObjectReq c p = .error e ∧
    putObjectReq c p = .error e ∧
    removeObjectReq c p = .error e ∧
    getObjectTaggingReq c p = .error e ∧
    putObjectTaggingReq c p = .error e ∧
    removeObjectTaggingReq c p = .error e ∧
    getObjectRetentionReq c p = .error e ∧
    putObjectRetentionReq c p = .error e ∧
    getObjectLegalHoldReq c p = .error e ∧
    putObjectLegalHoldReq c p = .error e ∧
    getPresignedURLReq c p = .error e ∧
    getPresignedPutURLReq c p = .error e ∧
    presignedHeadObjectReq c p = .error e ∧
    presignedPostUploadReq c p = .error e ∧
    ((c.publicBaseURL ≠ [] → getPublicURLReq c p = .error (.path e)) ∧
      (c.publicBaseURL = [] → getPublicURLReq c p = .error .notConfigured)) ∧
    (∀ src opts, copyObject c p src opts = .error e) ∧
    (∀ srcs, composeObjectReq c p srcs = .error e) ∧
    (∀ stat, folderExists c stat p = (false, some (.path e))) ∧
    (∀ stat put, createFolder c stat put p = (some (.path e), [])) ∧
    (∀ rm, removeFolder c rm p = some (.path e)) ∧
    (∀ backend r, listObjects c backend p r = [⟨[], some (.path e)⟩]) ∧
    (∀ backend, listFolders c backend p = .error (.path e)) ∧
    selectObjectContentReq c p = .ok ⟨c.bucketName, buildPath c p⟩ ∧
    (∀ backend r,
      listObjects c backend [] r = listObjectsCore c backend [] r) ∧
    (∀ backend, listFolders c backend [] = listFoldersCore c backend []) := by
  have hp : p ≠ [] := by
    intro hp0
    subst hp0
    rw [show validatePath c [] = .ok () from rfl] at h
    simp at h
  refine ⟨by unfold statObjectReq; rw [h],
    by unfold getObjectReq; rw [h],
    by unfold putObjectReq; rw [h],
    by unfold removeObjectReq; rw [h],
    by unfold getObjectTaggingReq; rw [h],
    by unfold putObjectTaggingReq; rw [h],
    by unfold removeObjectTaggingReq; rw [h],
    by unfold getObjectRetentionReq; rw [h],
    by unfold putObjectRetentionReq; rw [h],
    by unfold getObjectLegalHoldReq; rw [h],
    by unfold putObjectLegalHoldReq; rw [h],
    by unfold getPresignedURLReq; rw [h],
    by unfold getPresignedPutURLReq; rw [h],
    by unfold presignedHeadObjectReq; rw [h],
    by unfold presignedPostUploadReq; rw [h],
    ⟨fun hurl => by unfold getPublicURLReq; rw [if_neg hurl, h],
      fun hurl => by unfold getPublicURLReq; rw [if_pos hurl]⟩,
    fun src opts => by unfold copyObject; rw [h],
    fun srcs => by unfold composeObjectReq; rw [h],
    fun stat => by unfold folderExists; rw [h],
    fun stat put => by unfold createFolder; rw [h],
    fun rm => by unfold removeFolder; rw [h],
    fun backend r => by unfold listObjects; rw [if_pos hp, h],
    fun backend => by unfold listFolders; rw [if_pos hp, h],
    rfl,
    fun backend r => by unfold listObjects; rw [if_neg (by simp)],
    fun backend => by unfold listFolders; rw [if_neg (by simp)]⟩

/-- A concrete client like `cBaseC` but with a public base URL
configured. -/
def cPubC : Client :=
  { bucketName := "bkt".data, baseDir := "base".data,
    publicBaseURL := "http://pub".data }

/-- C2 witness: the amended statement instantiated at the invalid path
"../x", on the "base"-scoped client without and with a configured
public base URL. -/
theorem c2_witness :
    statObjectReq cBaseC "../x".data =
        .error (.traversal "../x".data) ∧
      removeFolder cBaseC (fun _ => []) "../x".data =
        some (.path (.traversal "../x".data)) ∧
      getPublicURLReq cBaseC "../x".data = .error .notConfigured ∧
      getPublicURLReq cPubC "../x".data =
        .error (.path (.traversal "../x".data)) ∧
      selectObjectContentReq cBaseC "../x".data =
        .ok ⟨"bkt".data, "base/../x".data⟩ := by
  obtain ⟨h1, -, -, -, -, -, -, -, -, -, -, -, -, -, -, ⟨-, hurlN⟩, -, -,
      -, -, hrm, -, -, hsel, -, -⟩ :=
    c2_validate_first_amended cBaseC "../x".data
      (.traversal "../x".data) (by decide)
  obtain ⟨-, -, -, -, -, -, -, -, -, -, -, -, -, -, -, ⟨hurlP, -⟩, -, -,
      -, -, -, -, -, -, -, -⟩ :=
    c2_validate_first_amended cPubC "../x".data
      (.traversal "../x".data) (by decide)
  refine ⟨h1, hrm (fun _ => []), hurlN rfl, hurlP (by decide), ?_⟩
  rw [hsel]
  decide
